import Mathlib

/-!
# Verification of the S3 release transport (`src/lib/transport/s3.js`)

This file shallowly embeds the `S3Transport` class of
`electron-simple-publisher` and proves the specification claims about it.

The storage provider (`aws-sdk`) and Node's `path` module are external
collaborators; the calls the transport makes to them are modelled as an
abstract event trace (`Ev`), with the provider's behaviour supplied by an
environment (`S3Env`).  Members inherited from the abstract transport base
class (`getBuildId`, `normalizeFileName`, `getUpdatesJsonUrl`), whose source
is not part of this repository, are modelled from the spec and marked as
such in their doc comments.
-/

set_option autoImplicit false

namespace S3Spec

/-! ## JavaScript string primitives

The transport manipulates object keys with `String.prototype.split`,
`String.prototype.startsWith`, `Array.prototype.indexOf`/`filter`, and a
regular-expression test.  These are modelled structurally over `List Char`
so that every definition reduces in the kernel. -/

/-- Models JavaScript `string.split(sep)` for a single-character separator:
splits the character list at every occurrence of `sep`; the result is never
empty (`split` of `""` yields `[""]`). -/
def splitOnChar (sep : Char) : List Char → List (List Char)
  | [] => [[]]
  | a :: rest =>
    match splitOnChar sep rest with
    | [] => [[]]
    | cur :: out => if a = sep then [] :: cur :: out else (a :: cur) :: out

/-- Models `key.split('/')[0]`: the first path segment of an object key. -/
def firstSeg (key : String) : String :=
  String.mk ((splitOnChar '/' key.data).headD [])

/-- Models JavaScript `s.startsWith(p)`. -/
def jsStartsWith (s p : String) : Bool :=
  p.data.isPrefixOf s.data

/-- A JavaScript `\w` character: `[A-Za-z0-9_]`. -/
def isWordChar (c : Char) : Bool :=
  c.isAlpha || c.isDigit || c = '_'

/-- A non-empty run of `\w` characters (`\w+`). -/
def wordSeg (s : List Char) : Bool :=
  !s.isEmpty && s.all isWordChar

/-- A non-empty run of `[\w.]` characters (`[\w.]+`). -/
def wordDotSeg (s : List Char) : Bool :=
  !s.isEmpty && s.all (fun c => isWordChar c || c = '.')

/-- Models the test `key.match(/^\w+-\w+-\w+-[\w.]+$/)` from
`fetchBuildsList`.  Since neither `\w` nor `[\w.]` matches `-`, a string
matches the regex exactly when splitting it at every `-` yields four
segments, the first three being `\w+` and the last `[\w.]+`; dots are only
permitted in the final segment. -/
def matchesBuildPattern (s : String) : Bool :=
  match splitOnChar '-' s.data with
  | [a, b, c, d] => wordSeg a && wordSeg b && wordSeg c && wordDotSeg d
  | _ => false

/-! ## Configuration normalization (`normalizeOptions`) -/

/-- The caller-supplied provider options object `options.aws`; only the two
credential fields can influence normalization (all other provider fields are
passed through opaquely to the client and never inspected by the
transport). `none` models an absent property. -/
structure AwsOverrides where
  accessKeyId : Option String := none
  secretAccessKey : Option String := none
deriving DecidableEq

/-- The `options.bucket` value: either a bare bucket-name string or a
bucket-creation descriptor object whose `Bucket` property may be absent. -/
inductive BucketSpec where
  | str (s : String)
  | obj (bucket : Option String)
deriving DecidableEq

/-- The raw `options.transport` configuration consumed by the constructor;
`none` models an absent property. -/
structure TransportOptions where
  accessKeyId : Option String := none
  secretAccessKey : Option String := none
  aws : Option AwsOverrides := none
  bucket : Option BucketSpec := none
deriving DecidableEq

/-- The result of `Object.assign(awsAuth, options.aws)`: the default auth
object holding the top-level credentials and `signatureVersion: 'v4'`,
overridden field-wise by `options.aws`. -/
structure MergedAws where
  accessKeyId : Option String
  secretAccessKey : Option String
  signatureVersion : String
deriving DecidableEq

/-- JavaScript truthiness for an optional string: absent (`undefined`) and
`""` are falsy. -/
def strFalsy : Option String → Bool
  | none => true
  | some s => s = ""

/-- Merge step `Object.assign(awsAuth, options.aws)` from `normalizeOptions`. -/
def mergeAws (opts : TransportOptions) : MergedAws :=
  let o := opts.aws.getD {}
  { accessKeyId := match o.accessKeyId with
      | some v => some v
      | none => opts.accessKeyId
    secretAccessKey := match o.secretAccessKey with
      | some v => some v
      | none => opts.secretAccessKey
    signatureVersion := "v4" }

/-- The normalized bucket descriptor `{ Bucket: <name> }`. -/
structure BucketDescriptor where
  Bucket : String
deriving DecidableEq

/-- The configuration after `normalizeOptions` succeeds. -/
structure NormalizedOptions where
  aws : MergedAws
  bucket : BucketDescriptor
deriving DecidableEq

/-- A configuration error: `new Error("The transport.<name> option is not
set")`, thrown by `normalizeOptions` during construction. -/
inductive ConfigError where
  | notSet (name : String)
deriving DecidableEq

/-- Lines 38–45 of `normalizeOptions`: a falsy `options.bucket` (absent or
`""`) is replaced by the derived name `<packageName>-updates`; a
descriptor object is kept as is. -/
def deriveBucket (opts : TransportOptions) (packageName : String) : BucketSpec :=
  match opts.bucket with
  | none => .str (packageName ++ "-updates")
  | some (.str s) => if s = "" then .str (packageName ++ "-updates") else .str s
  | some bs => bs

/-- Lines 43–47 of `normalizeOptions`: a bare string is coerced to
`{ Bucket: <string> }`; the final check reads the `Bucket` property. -/
def bucketNameOf : BucketSpec → Option String
  | .str s => some s
  | .obj b => b

/-- Method `normalizeOptions` from `s3.js` (lines 23–50): merges the provider
options over the default auth object, rejects falsy credentials, derives
the default bucket `<packageName>-updates` when `options.bucket` is falsy,
coerces a bare string bucket to `{ Bucket: <string> }`, and rejects a
descriptor whose `Bucket` is falsy.  `packageName` is
`this.commandOptions.packageJson.name`, supplied by the surrounding
system. -/
def normalizeOptions (opts : TransportOptions) (packageName : String) :
    Except ConfigError NormalizedOptions :=
  let aws := mergeAws opts
  if strFalsy aws.accessKeyId then
    .error (.notSet "accessKeyId")
  else if strFalsy aws.secretAccessKey then
    .error (.notSet "secretAccessKey")
  else
    match bucketNameOf (deriveBucket opts packageName) with
    | none => .error (.notSet "bucket")
    | some name =>
      if name = "" then .error (.notSet "bucket")
      else .ok { aws := aws, bucket := { Bucket := name } }

/-! ## Builds and remote paths -/

/-- Modelled from the spec: the `BuildIdentifier` resolver (`getBuildId`,
inherited from the abstract transport base class, which is not under
`src/`) produces a stable string identifier from build metadata (e.g.
`name-version-platform-arch`).  A build is modelled as carrying its
resolved identifier. -/
structure Build where
  id : String
deriving DecidableEq

/-- Accessor `this.getBuildId(build)`, see `Build`. -/
def getBuildId (b : Build) : String := b.id

/-- Modelled from the spec: `normalizeFileName` (inherited from the
abstract transport base class, not under `src/`).  The spec describes the
remote key only as the build identifier joined with "a normalized file
name", and its worked example leaves the base name unchanged, so the
normalization is modelled as the identity on file names. -/
def normalizeFileName (fileName : String) : String := fileName

/-- Models Node's `path.basename`: trailing separators are dropped, then
the substring after the last separator is returned.  `seps` is the host
platform's separator set (`['/']` under POSIX, `['/', '\\']` under
Windows). -/
def jsBasename (seps : List Char) (p : String) : String :=
  let rev := p.data.reverse.dropWhile (fun c => decide (c ∈ seps))
  String.mk ((rev.takeWhile (fun c => decide (c ∉ seps))).reverse)

/-- Models `path.posix.join` on the two arguments the transport passes — a
build identifier and a file base name.  `join` concatenates the non-empty
parts with `/` and normalizes the result; for parts without `.`/`..`
segments or redundant separators normalization is the identity, so the
model skips empty parts and joins with a single slash (the empty join
yields `"."` as in Node). -/
def posixJoin (a b : String) : String :=
  if a = "" then (if b = "" then "." else b)
  else if b = "" then a
  else a ++ "/" ++ b

/-- Method `getRemoteFilePath` from `s3.js` (lines 156–162):
`path.posix.join(this.getBuildId(build), this.normalizeFileName(path.basename(localFilePath)))`. -/
def getRemoteFilePath (seps : List Char) (localFilePath : String) (build : Build) : String :=
  posixJoin (getBuildId build) (normalizeFileName (jsBasename seps localFilePath))

/-! ## Listing post-processing (`fetchBuildsList`, `removeBuild`) -/

/-- Models JavaScript `Array.prototype.indexOf`: the index of the first
strictly-equal element, `-1` when absent. -/
def jsIndexOf (a : String) : List String → Int
  | [] => -1
  | b :: rest =>
    if b = a then 0
    else if jsIndexOf a rest = -1 then -1 else jsIndexOf a rest + 1

/-- Models `self.filter((item, pos, self) => self.indexOf(item) === pos)`
from `fetchBuildsList`: keeps only the first occurrence of each element. -/
def jsDedup (m : List String) : List String :=
  (m.enum.filter (fun p => jsIndexOf p.2 m = (p.1 : Int))).map Prod.snd

/-- The pure response processing of `fetchBuildsList` (lines 113–119):
`response.Contents.map(item => item.Key).map(key => key.split('/')[0])`,
filtered by the build-identifier regex, then deduplicated. -/
def fetchBuildsListResult (contents : List String) : List String :=
  jsDedup ((contents.map firstSeg).filter matchesBuildPattern)

/-- Specification-side deduplication: emit each element the first time it
is seen, preserving order; `seen` holds the already-emitted elements.
Used to state that the code's index-based dedup keeps first occurrences. -/
def firstSeenFrom (seen : List String) : List String → List String
  | [] => []
  | a :: rest =>
    if a ∈ seen then firstSeenFrom seen rest
    else a :: firstSeenFrom (a :: seen) rest

/-- Specification-side first-seen deduplication of a whole list. -/
def firstSeenDedup (l : List String) : List String := firstSeenFrom [] l

/-- The key selection of `removeBuild` (lines 133–137):
`response.Contents.map(item => item.Key).filter(key => key.startsWith(buildId))`. -/
def removeBuildKeys (buildId : String) (contents : List String) : List String :=
  contents.filter (fun k => jsStartsWith k buildId)

/-! ## The provider-call trace model

Every call the transport makes to the storage client is recorded as an
event; the provider's behaviour is an environment: whether `headBucket`
succeeds, whether `createBucket` succeeds, and the object keys a listing
returns.  `put`/`list`/`delete` calls themselves are modelled as
succeeding — their provider-side failures are raw propagation, outside the
claims below. -/

/-- One storage-provider call issued by the transport. -/
inductive Ev where
  | headBucket (bucket : String)
  | createBucket (bucket : String)
  | putObject (bucket key : String)
  | listObjectsV2 (bucket : String)
  | deleteObjects (bucket : String) (keys : List String)
deriving DecidableEq

/-- The storage provider's behaviour and the host platform. -/
structure S3Env where
  headOk : Bool
  createOk : Bool
  contents : List String
  hostSeps : List Char
deriving DecidableEq

/-- Failure of bucket provisioning: `headBucket` rejected and the
subsequent `createBucket` rejected too. -/
inductive ProvisionError where
  | createFailed
deriving DecidableEq

/-- The transport instance after `init()`: the bucket name from the
normalized options, and the memoized provisioning promise `this.q` —
its event trace and its settled outcome. -/
structure S3Transport where
  bucket : String
  qEvents : List Ev
  qResult : Except ProvisionError Unit

/-- Method `createBucket` from `s3.js` (lines 148–154):
`this.s3.headBucket({Bucket}).promise().catch(() => this.s3.createBucket(bucketOptions).promise())`.
A `headBucket` rejection is swallowed by the `catch` and answered with a
`createBucket` attempt, whose own rejection propagates. -/
def S3Transport.createBucket (env : S3Env) (bucket : String) :
    List Ev × Except ProvisionError Unit :=
  if env.headOk then ([Ev.headBucket bucket], .ok ())
  else if env.createOk then ([Ev.headBucket bucket, Ev.createBucket bucket], .ok ())
  else ([Ev.headBucket bucket, Ev.createBucket bucket], .error .createFailed)

/-- Method `init()` from `s3.js` (lines 52–57): starts bucket provisioning once
and stores the pending promise in `this.q`. -/
def S3Transport.init (env : S3Env) (bucket : String) : S3Transport :=
  { bucket := bucket
    qEvents := (S3Transport.createBucket env bucket).1
    qResult := (S3Transport.createBucket env bucket).2 }

/-- An invocation of one of the four public operations. -/
inductive Op where
  | uploadFile (filePath : String) (build : Build)
  | pushUpdatesJson
  | fetchBuildsList
  | removeBuild (build : Build)
deriving DecidableEq

/-- The value a public operation resolves with. -/
inductive OpResult where
  | url (u : String)
  | builds (ids : List String)
  | done
deriving DecidableEq

/-- The public URL `https://<bucket>.s3.amazonaws.com/<key>` (line 83). -/
def objectUrl (bucket key : String) : String :=
  "https://" ++ bucket ++ ".s3.amazonaws.com/" ++ key

/-- Modelled from the spec: `getUpdatesJsonUrl` (abstract transport base
class, not under `src/`); the manifest URL is "computed the same way as
artifact URLs but with the fixed key" `updates.json`. -/
def getUpdatesJsonUrl (bucket : String) : String :=
  objectUrl bucket "updates.json"

/-- One public operation run against an initialized transport.  Each
operation is a `this.q.then(...)` chain: when `this.q` rejected, the
continuation never runs (no storage call is made) and the rejection
propagates; otherwise the operation issues its storage calls. -/
def opRun (env : S3Env) (t : S3Transport) (op : Op) :
    List Ev × Except ProvisionError OpResult :=
  match t.qResult with
  | .error e => ([], .error e)
  | .ok _ =>
    match op with
    | .uploadFile fp b =>
      let key := getRemoteFilePath env.hostSeps fp b
      ([Ev.putObject t.bucket key], .ok (.url (objectUrl t.bucket key)))
    | .pushUpdatesJson =>
      ([Ev.putObject t.bucket "updates.json"], .ok (.url (getUpdatesJsonUrl t.bucket)))
    | .fetchBuildsList =>
      ([Ev.listObjectsV2 t.bucket], .ok (.builds (fetchBuildsListResult env.contents)))
    | .removeBuild b =>
      let ks := removeBuildKeys (getBuildId b) env.contents
      ([Ev.listObjectsV2 t.bucket, Ev.deleteObjects t.bucket ks], .ok .done)

/-- The full provider-call trace of one instance: `init()` followed by any
sequence of public operations, all sharing the single `this.q`. -/
def sessionTrace (env : S3Env) (bucket : String) (ops : List Op) : List Ev :=
  let t := S3Transport.init env bucket
  t.qEvents ++ ops.flatMap (fun op => (opRun env t op).1)

/-- The event that starts bucket provisioning (the existence check). -/
def isHeadEv : Ev → Bool
  | .headBucket _ => true
  | _ => false

/-- Provisioning events: the existence check and bucket creation. -/
def isProvisionEv : Ev → Bool
  | .headBucket _ => true
  | .createBucket _ => true
  | _ => false

/-- Storage-access events: object put, list and delete. -/
def isStorageEv : Ev → Bool
  | .putObject _ _ => true
  | .listObjectsV2 _ => true
  | .deleteObjects _ _ => true
  | _ => false

/-! ## Helper lemmas -/

theorem append_updates_ne_empty (pkg : String) : pkg ++ "-updates" ≠ "" := by
  intro h
  have hlen := congrArg String.length h
  rw [String.length_append] at hlen
  have h8 : ("-updates" : String).length = 8 := rfl
  have h0 : ("" : String).length = 0 := rfl
  omega

/-! ## Claims about configuration normalization -/

/-- C4: For every configuration in which `accessKeyId` or
`secretAccessKey` is missing (falsy after the provider-options merge),
construction fails with a `ConfigError` naming a credential field; the
check is pure and runs before any provider call (construction emits no
events). -/
theorem c4_missing_credentials_fail (opts : TransportOptions) (pkg : String)
    (h : strFalsy (mergeAws opts).accessKeyId = true ∨
      strFalsy (mergeAws opts).secretAccessKey = true) :
    normalizeOptions opts pkg = .error (.notSet "accessKeyId") ∨
    normalizeOptions opts pkg = .error (.notSet "secretAccessKey") := by
  rcases h with h | h
  · exact Or.inl (by simp [normalizeOptions, h])
  · by_cases hak : strFalsy (mergeAws opts).accessKeyId = true
    · exact Or.inl (by simp [normalizeOptions, hak])
    · exact Or.inr (by simp [normalizeOptions, hak, h])

/-- Witness for C4 at a concrete configuration with no `accessKeyId`. -/
theorem c4_witness :
    (strFalsy (mergeAws ({ secretAccessKey := some "SK", bucket := some (.str "foo") } : TransportOptions)).accessKeyId = true ∨
      strFalsy (mergeAws ({ secretAccessKey := some "SK", bucket := some (.str "foo") } : TransportOptions)).secretAccessKey = true) ∧
    (normalizeOptions { secretAccessKey := some "SK", bucket := some (.str "foo") } "myapp" = .error (.notSet "accessKeyId") ∨
      normalizeOptions { secretAccessKey := some "SK", bucket := some (.str "foo") } "myapp" = .error (.notSet "secretAccessKey")) :=
  ⟨Or.inl rfl, c4_missing_credentials_fail _ "myapp" (Or.inl rfl)⟩

/-- C5: After construction succeeds the stored bucket is a structured
descriptor with a non-empty name; a bare string bucket `s` is coerced to
`{ Bucket := s }`; a missing bucket yields the derived name
`<packageName>-updates`; and a structured descriptor with no bucket name
fails with `ConfigError`. -/
theorem c5_bucket_invariant :
    (∀ opts pkg r, normalizeOptions opts pkg = .ok r → r.bucket.Bucket ≠ "") ∧
    (∀ opts pkg s r, opts.bucket = some (.str s) → s ≠ "" →
      normalizeOptions opts pkg = .ok r → r.bucket = ⟨s⟩) ∧
    (∀ opts pkg r, opts.bucket = none → normalizeOptions opts pkg = .ok r →
      r.bucket = ⟨pkg ++ "-updates"⟩) ∧
    (∀ opts pkg, opts.bucket = some (.obj none) →
      strFalsy (mergeAws opts).accessKeyId = false →
      strFalsy (mergeAws opts).secretAccessKey = false →
      normalizeOptions opts pkg = .error (.notSet "bucket")) := by
  refine ⟨?_, ?_, ?_, ?_⟩
  · intro opts pkg r h
    simp only [normalizeOptions] at h
    split at h
    · exact absurd h (by simp)
    split at h
    · exact absurd h (by simp)
    split at h
    · exact absurd h (by simp)
    split at h
    · exact absurd h (by simp)
    · rename_i hname
      injection h with h
      subst h
      simpa using hname
  · intro opts pkg s r hb hs h
    have hd : deriveBucket opts pkg = .str s := by simp [deriveBucket, hb, hs]
    simp only [normalizeOptions, hd, bucketNameOf] at h
    split at h
    · exact absurd h (by simp)
    split at h
    · exact absurd h (by simp)
    injection h with h
    subst h
    rfl
  · intro opts pkg r hb h
    have hd : deriveBucket opts pkg = .str (pkg ++ "-updates") := by
      simp [deriveBucket, hb]
    simp only [normalizeOptions, hd, bucketNameOf] at h
    split at h
    · exact absurd h (by simp)
    split at h
    · exact absurd h (by simp)
    rw [if_neg (append_updates_ne_empty pkg)] at h
    injection h with h
    subst h
    rfl
  · intro opts pkg hb hak hsk
    have hd : deriveBucket opts pkg = .obj none := by simp [deriveBucket, hb]
    simp [normalizeOptions, hd, bucketNameOf, hak, hsk]

/-- Witness for C5 at concrete configurations. -/
theorem c5_witness :
    (normalizeOptions { accessKeyId := some "AK", secretAccessKey := some "SK", bucket := some (.str "foo") } "myapp" =
      .ok { aws := ⟨some "AK", some "SK", "v4"⟩, bucket := ⟨"foo"⟩ } ∧
      ({ aws := ⟨some "AK", some "SK", "v4"⟩, bucket := ⟨"foo"⟩ } : NormalizedOptions).bucket = ⟨"foo"⟩) ∧
    (normalizeOptions { accessKeyId := some "AK", secretAccessKey := some "SK" } "myapp" =
      .ok { aws := ⟨some "AK", some "SK", "v4"⟩, bucket := ⟨"myapp-updates"⟩ } ∧
      ({ aws := ⟨some "AK", some "SK", "v4"⟩, bucket := ⟨"myapp-updates"⟩ } : NormalizedOptions).bucket = ⟨"myapp" ++ "-updates"⟩) ∧
    normalizeOptions { accessKeyId := some "AK", secretAccessKey := some "SK", bucket := some (.obj none) } "myapp" = .error (.notSet "bucket") := by
  refine ⟨⟨rfl, ?_⟩, ⟨rfl, ?_⟩, ?_⟩
  · exact c5_bucket_invariant.2.1
      { accessKeyId := some "AK", secretAccessKey := some "SK", bucket := some (.str "foo") }
      "myapp" "foo" _ rfl (by decide) rfl
  · exact c5_bucket_invariant.2.2.1
      { accessKeyId := some "AK", secretAccessKey := some "SK" } "myapp" _ rfl rfl
  · exact c5_bucket_invariant.2.2.2
      { accessKeyId := some "AK", secretAccessKey := some "SK", bucket := some (.obj none) }
      "myapp" rfl rfl rfl

/-- C10: When `options.aws` itself carries non-empty `accessKeyId` and
`secretAccessKey`, they override the (absent) top-level credential fields
in the merge and construction succeeds without `ConfigError`. -/
theorem c10_aws_credentials_override (pkg ak sk : String) (opts : TransportOptions)
    (_htop1 : opts.accessKeyId = none) (_htop2 : opts.secretAccessKey = none)
    (haws : opts.aws = some { accessKeyId := some ak, secretAccessKey := some sk })
    (h1 : ak ≠ "") (h2 : sk ≠ "") (hb : opts.bucket = none) :
    normalizeOptions opts pkg =
      .ok { aws := ⟨some ak, some sk, "v4"⟩, bucket := ⟨pkg ++ "-updates"⟩ } := by
  have hmerge : mergeAws opts = ⟨some ak, some sk, "v4"⟩ := by
    simp [mergeAws, haws]
  simp [normalizeOptions, deriveBucket, bucketNameOf, hmerge, strFalsy, h1, h2, hb,
    append_updates_ne_empty pkg]

/-- Witness for C10 at a concrete configuration. -/
theorem c10_witness :
    ({ aws := some { accessKeyId := some "AK", secretAccessKey := some "SK" } :
        TransportOptions }).accessKeyId = none ∧
    normalizeOptions
        { aws := some { accessKeyId := some "AK", secretAccessKey := some "SK" } }
        "myapp" =
      .ok { aws := ⟨some "AK", some "SK", "v4"⟩, bucket := ⟨"myapp" ++ "-updates"⟩ } :=
  ⟨rfl, c10_aws_credentials_override "myapp" "AK" "SK" _ rfl rfl rfl
    (by decide) (by decide) rfl⟩

/-! ## Claims about remote path construction and key selection -/

theorem jsBasename_no_sep (seps : List Char) (p : String) :
    ∀ c ∈ (jsBasename seps p).data, c ∉ seps := by
  intro c hc
  have hc' : c ∈ ((p.data.reverse.dropWhile fun c => decide (c ∈ seps)).takeWhile
      fun c => decide (c ∉ seps)) := by
    simpa [jsBasename] using hc
  have hdec := List.mem_takeWhile_imp (p := fun c => decide (c ∉ seps)) hc'
  exact of_decide_eq_true hdec

/-- C8: `getRemoteFilePath` strips all local directory components (the
returned base name contains no host path separator) and joins the build
identifier with the normalized base name by a forward slash, whatever the
host separator set; in particular
`getRemoteFilePath("/local/dir/App-1.0-win-x64.exe", build)` with
identifier `"App-1.0-win-x64"` yields
`"App-1.0-win-x64/App-1.0-win-x64.exe"`. -/
theorem c8_remote_file_path :
    (∀ seps fp b, getBuildId b ≠ "" → normalizeFileName (jsBasename seps fp) ≠ "" →
      getRemoteFilePath seps fp b =
        getBuildId b ++ "/" ++ normalizeFileName (jsBasename seps fp)) ∧
    (∀ seps fp, ∀ c ∈ (normalizeFileName (jsBasename seps fp)).data, c ∉ seps) ∧
    getRemoteFilePath ['/'] "/local/dir/App-1.0-win-x64.exe" ⟨"App-1.0-win-x64"⟩ =
      "App-1.0-win-x64/App-1.0-win-x64.exe" := by
  refine ⟨?_, ?_, by decide⟩
  · intro seps fp b hid hfn
    simp [getRemoteFilePath, posixJoin, hid, hfn]
  · intro seps fp c hc
    exact jsBasename_no_sep seps fp c hc

/-- Witness for C8 at the spec's concrete path. -/
theorem c8_witness :
    getBuildId ⟨"App-1.0-win-x64"⟩ ≠ "" ∧
    normalizeFileName (jsBasename ['/'] "/local/dir/App-1.0-win-x64.exe") ≠ "" ∧
    getRemoteFilePath ['/'] "/local/dir/App-1.0-win-x64.exe" ⟨"App-1.0-win-x64"⟩ =
      getBuildId ⟨"App-1.0-win-x64"⟩ ++ "/" ++
        normalizeFileName (jsBasename ['/'] "/local/dir/App-1.0-win-x64.exe") :=
  ⟨by decide, by decide,
    c8_remote_file_path.1 ['/'] "/local/dir/App-1.0-win-x64.exe" ⟨"App-1.0-win-x64"⟩
      (by decide) (by decide)⟩

/-- C9: `removeBuild` selects keys by plain string-prefix matching on
the full object key: a key whose first path segment strictly extends the
target identifier (`"App-1.0-win-x64-beta/app.exe"` for target
`"App-1.0-win-x64"`) is also included in the batch delete, although it
belongs to a different build (its first segment differs from the target
identifier). -/
theorem c9_prefix_overmatch :
    (opRun ⟨true, true, ["App-1.0-win-x64-beta/app.exe", "App-1.0-win-x64/app.exe"], ['/']⟩
        (S3Transport.init ⟨true, true, ["App-1.0-win-x64-beta/app.exe", "App-1.0-win-x64/app.exe"], ['/']⟩ "bkt")
        (.removeBuild ⟨"App-1.0-win-x64"⟩)).1 =
      [Ev.listObjectsV2 "bkt",
        Ev.deleteObjects "bkt" ["App-1.0-win-x64-beta/app.exe", "App-1.0-win-x64/app.exe"]] ∧
    firstSeg "App-1.0-win-x64-beta/app.exe" ≠ "App-1.0-win-x64" := by
  exact ⟨by decide, by decide⟩

/-- C3: For every build and listing response, `removeBuild` issues a
batch delete whose key set is exactly the listed keys that start with the
build's identifier, and no others. -/
theorem c3_remove_build_exact_keys (env : S3Env) (bucket : String) (b : Build)
    (hq : (S3Transport.createBucket env bucket).2 = .ok ()) :
    opRun env (S3Transport.init env bucket) (.removeBuild b) =
      ([Ev.listObjectsV2 bucket,
        Ev.deleteObjects bucket (removeBuildKeys (getBuildId b) env.contents)],
        .ok .done) ∧
    (∀ k, k ∈ removeBuildKeys (getBuildId b) env.contents ↔
      (k ∈ env.contents ∧ jsStartsWith k (getBuildId b) = true)) := by
  constructor
  · simp [opRun, S3Transport.init, hq]
  · intro k
    simp [removeBuildKeys, List.mem_filter]

/-- Witness for C3 at a concrete environment. -/
theorem c3_witness :
    (S3Transport.createBucket ⟨true, true, ["App-1.0-win-x64/a.exe", "readme.txt"], ['/']⟩ "b").2 = .ok () ∧
    opRun ⟨true, true, ["App-1.0-win-x64/a.exe", "readme.txt"], ['/']⟩
        (S3Transport.init ⟨true, true, ["App-1.0-win-x64/a.exe", "readme.txt"], ['/']⟩ "b")
        (.removeBuild ⟨"App-1.0-win-x64"⟩) =
      ([Ev.listObjectsV2 "b",
        Ev.deleteObjects "b" (removeBuildKeys (getBuildId ⟨"App-1.0-win-x64"⟩)
          (⟨true, true, ["App-1.0-win-x64/a.exe", "readme.txt"], ['/']⟩ : S3Env).contents)],
        .ok .done) ∧
    ("App-1.0-win-x64/a.exe" ∈ removeBuildKeys (getBuildId ⟨"App-1.0-win-x64"⟩)
        (⟨true, true, ["App-1.0-win-x64/a.exe", "readme.txt"], ['/']⟩ : S3Env).contents ↔
      ("App-1.0-win-x64/a.exe" ∈ (⟨true, true, ["App-1.0-win-x64/a.exe", "readme.txt"], ['/']⟩ : S3Env).contents ∧
        jsStartsWith "App-1.0-win-x64/a.exe" (getBuildId ⟨"App-1.0-win-x64"⟩) = true)) :=
  ⟨rfl,
    (c3_remove_build_exact_keys ⟨true, true, ["App-1.0-win-x64/a.exe", "readme.txt"], ['/']⟩
      "b" ⟨"App-1.0-win-x64"⟩ rfl).1,
    (c3_remove_build_exact_keys ⟨true, true, ["App-1.0-win-x64/a.exe", "readme.txt"], ['/']⟩
      "b" ⟨"App-1.0-win-x64"⟩ rfl).2 "App-1.0-win-x64/a.exe"⟩

/-- C7: For every build whose identifier starts no listed key,
`removeBuild` issues an empty batch delete and resolves successfully. -/
theorem c7_remove_build_noop (env : S3Env) (bucket : String) (b : Build)
    (hq : (S3Transport.createBucket env bucket).2 = .ok ())
    (hnone : ∀ k ∈ env.contents, jsStartsWith k (getBuildId b) = false) :
    opRun env (S3Transport.init env bucket) (.removeBuild b) =
      ([Ev.listObjectsV2 bucket, Ev.deleteObjects bucket []], .ok .done) := by
  have hk : removeBuildKeys (getBuildId b) env.contents = [] := by
    refine List.filter_eq_nil_iff.mpr ?_
    intro a ha
    simp [hnone a ha]
  simp [opRun, S3Transport.init, hq, hk]

/-- Witness for C7 at a concrete environment where nothing matches. -/
theorem c7_witness :
    (S3Transport.createBucket ⟨true, true, ["other-build/x.exe"], ['/']⟩ "b").2 = .ok () ∧
    (∀ k ∈ (⟨true, true, ["other-build/x.exe"], ['/']⟩ : S3Env).contents,
      jsStartsWith k (getBuildId ⟨"App-1.0-win-x64"⟩) = false) ∧
    opRun ⟨true, true, ["other-build/x.exe"], ['/']⟩
        (S3Transport.init ⟨true, true, ["other-build/x.exe"], ['/']⟩ "b")
        (.removeBuild ⟨"App-1.0-win-x64"⟩) =
      ([Ev.listObjectsV2 "b", Ev.deleteObjects "b" []], .ok .done) :=
  ⟨rfl, by decide,
    c7_remove_build_noop ⟨true, true, ["other-build/x.exe"], ['/']⟩ "b"
      ⟨"App-1.0-win-x64"⟩ rfl (by decide)⟩

/-! ## Claims about bucket provisioning and operation ordering -/

/-- C6: Provisioning first checks bucket existence; a failing existence
check is swallowed (it is a normal branch triggering a creation attempt,
not an error), while a failing creation is not handled locally: it becomes
the provisioning failure delivered to every operation awaiting the shared
result. -/
theorem c6_provision_error_flow (env : S3Env) (bucket : String) :
    (env.headOk = false →
      (S3Transport.createBucket env bucket).1 =
        [Ev.headBucket bucket, Ev.createBucket bucket] ∧
      (env.createOk = true → (S3Transport.createBucket env bucket).2 = .ok ()) ∧
      (env.createOk = false →
        (S3Transport.createBucket env bucket).2 = .error .createFailed ∧
        ∀ op, opRun env (S3Transport.init env bucket) op =
          ([], .error .createFailed))) ∧
    (env.headOk = true →
      (S3Transport.createBucket env bucket).1 = [Ev.headBucket bucket] ∧
      (S3Transport.createBucket env bucket).2 = .ok ()) := by
  constructor
  · intro hh
    refine ⟨by cases hc2 : env.createOk <;> simp [S3Transport.createBucket, hh, hc2],
      fun hc => ?_, fun hc => ⟨?_, fun op => ?_⟩⟩
    · simp [S3Transport.createBucket, hh, hc]
    · simp [S3Transport.createBucket, hh, hc]
    · simp [opRun, S3Transport.init, S3Transport.createBucket, hh, hc]
  · intro hh
    exact ⟨by simp [S3Transport.createBucket, hh], by simp [S3Transport.createBucket, hh]⟩

/-- Witness for C6 with both provider calls failing. -/
theorem c6_witness :
    ((⟨false, false, [], ['/']⟩ : S3Env).headOk = false) ∧
    ((⟨false, false, [], ['/']⟩ : S3Env).createOk = false) ∧
    (S3Transport.createBucket ⟨false, false, [], ['/']⟩ "b").1 =
      [Ev.headBucket "b", Ev.createBucket "b"] ∧
    (S3Transport.createBucket ⟨false, false, [], ['/']⟩ "b").2 = .error .createFailed ∧
    opRun ⟨false, false, [], ['/']⟩ (S3Transport.init ⟨false, false, [], ['/']⟩ "b")
      .fetchBuildsList = ([], .error .createFailed) := by
  have h := c6_provision_error_flow ⟨false, false, [], ['/']⟩ "b"
  exact ⟨rfl, rfl, (h.1 rfl).1, ((h.1 rfl).2.2 rfl).1, ((h.1 rfl).2.2 rfl).2 .fetchBuildsList⟩

theorem ev_storage_not_provision (e : Ev) (h : isStorageEv e = true) :
    isProvisionEv e = false ∧ isHeadEv e = false := by
  cases e <;> simp_all [isStorageEv, isProvisionEv, isHeadEv]

theorem ev_provision_not_storage (e : Ev) (h : isProvisionEv e = true) :
    isStorageEv e = false := by
  cases e <;> simp_all [isStorageEv, isProvisionEv]

theorem opRun_events_storage (env : S3Env) (t : S3Transport) (op : Op) :
    ∀ e ∈ (opRun env t op).1, isStorageEv e = true := by
  intro e he
  cases hq : t.qResult with
  | error e' => simp [opRun, hq] at he
  | ok u =>
    cases op with
    | uploadFile fp b =>
      simp [opRun, hq] at he
      subst he; rfl
    | pushUpdatesJson =>
      simp [opRun, hq] at he
      subst he; rfl
    | fetchBuildsList =>
      simp [opRun, hq] at he
      subst he; rfl
    | removeBuild b =>
      simp [opRun, hq] at he
      rcases he with rfl | rfl <;> rfl

theorem createBucket_events_shape (env : S3Env) (bucket : String) :
    (S3Transport.createBucket env bucket).1 = [Ev.headBucket bucket] ∨
    (S3Transport.createBucket env bucket).1 =
      [Ev.headBucket bucket, Ev.createBucket bucket] := by
  cases hh : env.headOk <;> cases hc : env.createOk <;>
    simp [S3Transport.createBucket, hh, hc]

/-- C1: In every session trace (one `init()` followed by any sequence
of public operations) the bucket-existence check is issued exactly once —
provisioning is started at most once per instance — and any trace prefix
containing a storage access (put, list or delete) already contains all
provisioning events: no operation touches storage before the single shared
provisioning operation has resolved. -/
theorem c1_ops_await_single_provisioning (env : S3Env) (bucket : String)
    (ops : List Op) (n : Nat) :
    (sessionTrace env bucket ops).countP isHeadEv = 1 ∧
    (((sessionTrace env bucket ops).take n).countP isStorageEv ≠ 0 →
      ((sessionTrace env bucket ops).take n).countP isProvisionEv =
        (sessionTrace env bucket ops).countP isProvisionEv) := by
  have htr : sessionTrace env bucket ops =
      (S3Transport.createBucket env bucket).1 ++
        ops.flatMap (fun op => (opRun env (S3Transport.init env bucket) op).1) := rfl
  have hreststorage : ∀ e ∈ ops.flatMap
      (fun op => (opRun env (S3Transport.init env bucket) op).1), isStorageEv e = true := by
    intro e he
    rcases List.mem_flatMap.mp he with ⟨op, _, hmem⟩
    exact opRun_events_storage env (S3Transport.init env bucket) op e hmem
  have hq_all_prov : ∀ e ∈ (S3Transport.createBucket env bucket).1,
      isProvisionEv e = true := by
    rcases createBucket_events_shape env bucket with h | h <;> rw [h] <;>
      intro e he <;> simp at he
    · subst he; rfl
    · rcases he with rfl | rfl <;> rfl
  constructor
  · rw [htr, List.countP_append]
    have h1 : (S3Transport.createBucket env bucket).1.countP isHeadEv = 1 := by
      rcases createBucket_events_shape env bucket with h | h <;> rw [h] <;> rfl
    have h2 : (ops.flatMap
        (fun op => (opRun env (S3Transport.init env bucket) op).1)).countP isHeadEv = 0 := by
      refine List.countP_eq_zero.mpr ?_
      intro e he
      simp [(ev_storage_not_provision e (hreststorage e he)).2]
    omega
  · intro hst
    rw [htr, List.take_append_eq_append_take, List.countP_append] at hst
    have hq0 : ((S3Transport.createBucket env bucket).1.take n).countP isStorageEv = 0 := by
      refine List.countP_eq_zero.mpr ?_
      intro e he
      have hp := hq_all_prov e (List.take_subset n _ he)
      simp [ev_provision_not_storage e hp]
    rw [hq0] at hst
    have hlen : (S3Transport.createBucket env bucket).1.length < n := by
      by_contra hle
      push_neg at hle
      rw [Nat.sub_eq_zero_of_le hle] at hst
      simp at hst
    rw [htr, List.take_append_eq_append_take, List.countP_append, List.countP_append,
      List.take_of_length_le (le_of_lt hlen)]
    have hr0 : (ops.flatMap
        (fun op => (opRun env (S3Transport.init env bucket) op).1)).countP isProvisionEv = 0 := by
      refine List.countP_eq_zero.mpr ?_
      intro e he
      simp [(ev_storage_not_provision e (hreststorage e he)).1]
    have hr0' : ((ops.flatMap
        (fun op => (opRun env (S3Transport.init env bucket) op).1)).take
          (n - (S3Transport.createBucket env bucket).1.length)).countP isProvisionEv = 0 := by
      refine List.countP_eq_zero.mpr ?_
      intro e he
      simp [(ev_storage_not_provision e (hreststorage e (List.take_subset _ _ he))).1]
    rw [hr0, hr0']

/-- Witness for C1 on a concrete session containing a storage access. -/
theorem c1_witness :
    ((sessionTrace ⟨true, true, [], ['/']⟩ "b" [Op.fetchBuildsList]).take 2).countP isStorageEv ≠ 0 ∧
    (sessionTrace ⟨true, true, [], ['/']⟩ "b" [Op.fetchBuildsList]).countP isHeadEv = 1 ∧
    ((sessionTrace ⟨true, true, [], ['/']⟩ "b" [Op.fetchBuildsList]).take 2).countP isProvisionEv =
      (sessionTrace ⟨true, true, [], ['/']⟩ "b" [Op.fetchBuildsList]).countP isProvisionEv :=
  ⟨by decide,
    (c1_ops_await_single_provisioning ⟨true, true, [], ['/']⟩ "b" [Op.fetchBuildsList] 2).1,
    (c1_ops_await_single_provisioning ⟨true, true, [], ['/']⟩ "b" [Op.fetchBuildsList] 2).2
      (by decide)⟩

/-! ## Claims about the builds listing -/

theorem jsIndexOf_append_of_mem (a : String) (pre l : List String) (h : a ∈ pre) :
    0 ≤ jsIndexOf a (pre ++ l) ∧ jsIndexOf a (pre ++ l) < (pre.length : Int) := by
  induction pre with
  | nil => exact absurd h (List.not_mem_nil a)
  | cons b pre ih =>
    rw [List.cons_append]
    simp only [jsIndexOf]
    by_cases hb : b = a
    · rw [if_pos hb]
      refine ⟨le_refl 0, ?_⟩
      simp only [List.length_cons]
      push_cast
      omega
    · rcases List.mem_cons.mp h with heq | hmem
      · exact absurd heq.symm hb
      obtain ⟨ih0, ih1⟩ := ih hmem
      rw [if_neg hb]
      have hne : ¬ jsIndexOf a (pre ++ l) = -1 := by omega
      rw [if_neg hne]
      simp only [List.length_cons]
      push_cast
      omega

theorem jsIndexOf_append_not_mem (a : String) (pre rest : List String) (h : a ∉ pre) :
    jsIndexOf a (pre ++ a :: rest) = (pre.length : Int) := by
  induction pre with
  | nil => simp [jsIndexOf]
  | cons b pre ih =>
    rw [List.mem_cons, not_or] at h
    obtain ⟨hab, hmem⟩ := h
    rw [List.cons_append]
    simp only [jsIndexOf]
    rw [if_neg (fun hba => hab hba.symm), ih hmem]
    have hne : ¬ ((pre.length : Int) = -1) := by omega
    rw [if_neg hne]
    simp only [List.length_cons]
    push_cast
    ring

theorem firstSeenFrom_congr (s₁ s₂ l : List String)
    (h : ∀ x, x ∈ s₁ ↔ x ∈ s₂) : firstSeenFrom s₁ l = firstSeenFrom s₂ l := by
  induction l generalizing s₁ s₂ with
  | nil => rfl
  | cons a rest ih =>
    simp only [firstSeenFrom]
    by_cases ha : a ∈ s₁
    · rw [if_pos ha, if_pos ((h a).mp ha)]
      exact ih s₁ s₂ h
    · rw [if_neg ha, if_neg (fun hx => ha ((h a).mpr hx))]
      refine congrArg (fun t => a :: t) (ih (a :: s₁) (a :: s₂) ?_)
      intro x
      simp only [List.mem_cons]
      rw [h x]

theorem jsDedup_go (l : List String) : ∀ pre : List String,
    ((List.enumFrom pre.length l).filter
      (fun p => jsIndexOf p.2 (pre ++ l) = (p.1 : Int))).map Prod.snd =
    firstSeenFrom pre l := by
  induction l with
  | nil => intro pre; rfl
  | cons a rest ih =>
    intro pre
    have hassoc : pre ++ a :: rest = (pre ++ [a]) ++ rest := by simp
    have hlen : pre.length + 1 = (pre ++ [a]).length := by simp
    have hseen : ∀ x, x ∈ pre ++ [a] ↔ x ∈ a :: pre := by
      intro x
      simp only [List.mem_append, List.mem_cons, List.mem_singleton,
        List.not_mem_nil, or_false]
      exact or_comm
    simp only [List.enumFrom, List.filter_cons, decide_eq_true_eq]
    by_cases hmem : a ∈ pre
    · have hb := jsIndexOf_append_of_mem a pre (a :: rest) hmem
      have hcond : ¬ (jsIndexOf a (pre ++ a :: rest) = (pre.length : Int)) := by omega
      rw [if_neg hcond]
      have hrhs : firstSeenFrom pre (a :: rest) = firstSeenFrom pre rest := by
        simp [firstSeenFrom, hmem]
      rw [hrhs, hassoc, hlen, ih (pre ++ [a])]
      refine firstSeenFrom_congr _ _ rest ?_
      intro x
      rw [hseen x]
      simp only [List.mem_cons]
      constructor
      · rintro (rfl | hx)
        · exact hmem
        · exact hx
      · intro hx
        exact Or.inr hx
    · have hcond : jsIndexOf a (pre ++ a :: rest) = (pre.length : Int) :=
        jsIndexOf_append_not_mem a pre rest hmem
      rw [if_pos hcond]
      have hrhs : firstSeenFrom pre (a :: rest) = a :: firstSeenFrom (a :: pre) rest := by
        simp [firstSeenFrom, hmem]
      rw [List.map_cons, hrhs, hassoc, hlen, ih (pre ++ [a])]
      exact congrArg (fun t => a :: t) (firstSeenFrom_congr _ _ rest hseen)

theorem jsDedup_eq_firstSeenDedup (l : List String) : jsDedup l = firstSeenDedup l := by
  have h := jsDedup_go l []
  simpa [jsDedup, firstSeenDedup, List.enum] using h

theorem mem_firstSeenFrom (l : List String) : ∀ (seen : List String) (x : String),
    x ∈ firstSeenFrom seen l ↔ (x ∉ seen ∧ x ∈ l) := by
  induction l with
  | nil => intro seen x; simp [firstSeenFrom]
  | cons a rest ih =>
    intro seen x
    simp only [firstSeenFrom]
    by_cases ha : a ∈ seen
    · rw [if_pos ha, ih seen x]
      simp only [List.mem_cons]
      constructor
      · rintro ⟨h1, h2⟩
        exact ⟨h1, Or.inr h2⟩
      · rintro ⟨h1, rfl | h2⟩
        · exact absurd ha h1
        · exact ⟨h1, h2⟩
    · rw [if_neg ha]
      simp only [List.mem_cons, ih (a :: seen) x]
      constructor
      · rintro (rfl | ⟨h1, h2⟩)
        · exact ⟨ha, Or.inl rfl⟩
        · exact ⟨fun hx => h1 (Or.inr hx), Or.inr h2⟩
      · rintro ⟨h1, rfl | h2⟩
        · exact Or.inl rfl
        · by_cases hxa : x = a
          · exact Or.inl hxa
          · refine Or.inr ⟨?_, h2⟩
            intro hx
            rcases hx with h | h
            · exact hxa h
            · exact h1 h

theorem nodup_firstSeenFrom (l : List String) : ∀ seen, (firstSeenFrom seen l).Nodup := by
  induction l with
  | nil => intro seen; exact List.nodup_nil
  | cons a rest ih =>
    intro seen
    simp only [firstSeenFrom]
    by_cases ha : a ∈ seen
    · rw [if_pos ha]; exact ih seen
    · rw [if_neg ha]
      refine List.nodup_cons.mpr ⟨?_, ih (a :: seen)⟩
      intro hmem
      exact ((mem_firstSeenFrom rest (a :: seen) a).mp hmem).1 (List.mem_cons_self a seen)

theorem sublist_firstSeenFrom (l : List String) :
    ∀ seen, (firstSeenFrom seen l).Sublist l := by
  induction l with
  | nil => intro seen; simp [firstSeenFrom]
  | cons a rest ih =>
    intro seen
    simp only [firstSeenFrom]
    by_cases ha : a ∈ seen
    · rw [if_pos ha]; exact List.Sublist.cons a (ih seen)
    · rw [if_neg ha]; exact List.Sublist.cons₂ a (ih (a :: seen))

/-- C2 counterexample: Over the spec's keys, `fetchBuildsList` does
NOT return `["App-1.0-win-x64", "App-2.0-mac-x64"]`: it returns `[]`,
because the regex `^\w+-\w+-\w+-[\w.]+$` allows dots only in the final
segment, and `"App-1.0-win-x64"` has a dot in its second segment. -/
theorem c2_counterexample :
    fetchBuildsListResult ["App-1.0-win-x64/a.exe", "App-1.0-win-x64/b.exe",
      "App-2.0-mac-x64/c.dmg", "readme.txt"] = [] ∧
    fetchBuildsListResult ["App-1.0-win-x64/a.exe", "App-1.0-win-x64/b.exe",
      "App-2.0-mac-x64/c.dmg", "readme.txt"] ≠
      ["App-1.0-win-x64", "App-2.0-mac-x64"] ∧
    matchesBuildPattern "App-1.0-win-x64" = false := by
  exact ⟨by decide, by decide, by decide⟩

/-- C2 amended: For every listing response, `fetchBuildsList` returns
exactly the first path segments of the object keys matching
`^\w+-\w+-\w+-[\w.]+$` (three `\w+` segments and one final `[\w.]+`
segment joined by hyphens — dots only in the last segment), deduplicated
while preserving first-seen order; over keys whose identifiers fit that
pattern, e.g. `["app-win-x64-v1.0.0/a.exe", "app-win-x64-v1.0.0/b.exe",
"app-mac-x64-v2.0.0/c.dmg", "readme.txt"]`, it returns the two identifiers
in first-seen order, while over the spec's original keys it returns `[]`. -/
theorem c2_fetch_builds_amended :
    (∀ contents, fetchBuildsListResult contents =
      firstSeenDedup ((contents.map firstSeg).filter matchesBuildPattern)) ∧
    (∀ contents s, s ∈ fetchBuildsListResult contents ↔
      (matchesBuildPattern s = true ∧ ∃ k ∈ contents, firstSeg k = s)) ∧
    (∀ contents, (fetchBuildsListResult contents).Nodup) ∧
    (∀ contents, (fetchBuildsListResult contents).Sublist
      ((contents.map firstSeg).filter matchesBuildPattern)) ∧
    fetchBuildsListResult ["app-win-x64-v1.0.0/a.exe", "app-win-x64-v1.0.0/b.exe",
      "app-mac-x64-v2.0.0/c.dmg", "readme.txt"] =
      ["app-win-x64-v1.0.0", "app-mac-x64-v2.0.0"] ∧
    fetchBuildsListResult ["App-1.0-win-x64/a.exe", "App-1.0-win-x64/b.exe",
      "App-2.0-mac-x64/c.dmg", "readme.txt"] = [] := by
  have heq : ∀ contents : List String, fetchBuildsListResult contents =
      firstSeenDedup ((contents.map firstSeg).filter matchesBuildPattern) :=
    fun contents => jsDedup_eq_firstSeenDedup _
  refine ⟨heq, ?_, ?_, ?_, by decide, by decide⟩
  · intro contents s
    rw [heq contents]
    unfold firstSeenDedup
    rw [mem_firstSeenFrom]
    simp only [List.not_mem_nil, not_false_iff, true_and, List.mem_filter, List.mem_map]
    constructor
    · rintro ⟨⟨k, hk, rfl⟩, hm⟩
      exact ⟨hm, k, hk, rfl⟩
    · rintro ⟨hm, k, hk, rfl⟩
      exact ⟨⟨k, hk, rfl⟩, hm⟩
  · intro contents
    rw [heq contents]
    exact nodup_firstSeenFrom _ []
  · intro contents
    rw [heq contents]
    exact sublist_firstSeenFrom _ []

end S3Spec
